import Mathlib

/-!
Shallow embedding of the document-acquisition and corpus-management pipeline
(src/acquisition.py and src/corpus.py).

Python strings are modelled as lists of characters (code points); the dynamic
dict/attribute shapes of the raw records as structures with optional fields;
raised exceptions as `Except`; the pandas dataframe held by `Corpus` as a list
of rows plus the derived columns `get_stats` adds.  The pandas CSV layer used
by `Corpus.save` / `Corpus.load` (`to_csv` / `read_csv` with `sep='\t'`) is
modelled at the character level: `to_csv` writes with `csv.QUOTE_MINIMAL`
quoting (a field containing a tab, newline, carriage return or double quote is
wrapped in double quotes with inner quotes doubled), `read_csv` reads it back
with a quote-aware scanner.  Dtype/NA inference and blank-line skipping of
`read_csv` are outside the model.
-/

/-- Python strings modelled as lists of characters. -/
abbrev Str := List Char

/-- Python `text.replace` with a one-character pattern: every newline becomes a
single space, as in `texte.replace("\n", " ")`. -/
def replaceNl : Str → Str
  | [] => []
  | c :: rest => (if c = '\n' then ' ' else c) :: replaceNl rest

/-- Exceptions that can escape normalization (the spec's `SchemaMismatch`
taxonomy).  Constructors record the concrete Python exception they model. -/
inductive SchemaMismatch where
  /-- `AttributeError`: a praw submission lacks an attribute that is read
  directly (`submission.title`, `submission.selftext`). -/
  | missingAttr (name : Str)
  /-- `IndexError`: `entry['author'][0]` on an empty author list. -/
  | indexOutOfRange
  /-- `KeyError`: `articles['feed']` when the parsed response has no feed. -/
  | missingKey (name : Str)
  deriving DecidableEq

/-- A praw submission as read by `get_reddit_docs`: exactly the attributes the
loop body touches.  `Option` models an attribute that may be structurally
absent; `author` is the stringified author (praw returns `None` for a deleted
author, which `str` turns into the text `None`); `created_utc` is the epoch
timestamp (its fractional part is not modelled). -/
structure Submission where
  title : Option Str
  selftext : Option Str
  author : Option Str
  created_utc : Int
  permalink : Str
  deriving DecidableEq

/-- The `date` value of an acquisition document is a number for Reddit
(`created_utc`) and a string for Arxiv (`published`). -/
inductive DateVal where
  | num (t : Int)
  | str (s : Str)
  deriving DecidableEq

/-- A document dict as built by `get_reddit_docs` / `get_arxiv_docs`. -/
structure AcqDoc where
  texte : Str
  source : Str
  titre : Str
  auteur : Str
  date : DateVal
  url : Str
  deriving DecidableEq

/-- The loop body of `get_reddit_docs`: `texte` is title, a space and selftext
with newlines replaced by spaces; direct attribute access on an absent field
raises (`AttributeError`), modelled as `SchemaMismatch.missingAttr`. -/
def normalize_submission (s : Submission) : Except SchemaMismatch AcqDoc :=
  match s.title with
  | none => .error (.missingAttr (("title").data))
  | some title =>
    match s.selftext with
    | none => .error (.missingAttr (("selftext").data))
    | some selftext =>
      .ok { texte := replaceNl (title ++ [' '] ++ selftext)
          , source := ("reddit").data
          , titre := title
          , auteur := match s.author with | some a => a | none => ("None").data
          , date := .num s.created_utc
          , url := ("https://reddit.com").data ++ s.permalink }

/-- `get_reddit_docs`, applied to the submissions the praw search yields: the
loop appends one normalized document per submission; an exception aborts the
whole call and propagates. -/
def get_reddit_docs : List Submission → Except SchemaMismatch (List AcqDoc)
  | [] => .ok []
  | s :: rest => do
    let d ← normalize_submission s
    let ds ← get_reddit_docs rest
    .ok (d :: ds)

/-- An author object of an Arxiv entry: a dict that may (or may not) carry a
`name` key; `entry['author'].get('name', 'Unknown')`. -/
structure ArxivAuthor where
  name : Option Str
  deriving DecidableEq

/-- `entry['author']`: structurally absent, a single dict, or a list of dicts
(xmltodict collapses a one-element list).  A present value of any other shape
falls through both `isinstance` tests and is not modelled. -/
inductive AuthorField where
  | absent
  | single (a : ArxivAuthor)
  | several (l : List ArxivAuthor)
  deriving DecidableEq

/-- An Arxiv feed entry as read by the per-entry loop of `get_arxiv_docs`:
every field is fetched with `entry.get(..., default)` except `author`. -/
structure ArxivEntry where
  summary : Option Str
  title : Option Str
  author : AuthorField
  published : Option Str
  id : Option Str
  deriving DecidableEq

/-- Author resolution of `get_arxiv_docs` (lines 99-104): start from the
sentinel, use `name` of the single dict or of the first list element;
`entry['author'][0]` on an empty list raises `IndexError`. -/
def entry_auteur (e : ArxivEntry) : Except SchemaMismatch Str :=
  match e.author with
  | .absent => .ok (("Unknown").data)
  | .single a => .ok ((a.name).getD (("Unknown").data))
  | .several [] => .error .indexOutOfRange
  | .several (a :: _) => .ok ((a.name).getD (("Unknown").data))

/-- The per-entry loop body of `get_arxiv_docs`: a missing summary falls back
to the empty string (`entry.get('summary', '')`), newlines are replaced by
spaces; only author resolution can raise. -/
def normalize_entry (e : ArxivEntry) : Except SchemaMismatch AcqDoc := do
  let auteur ← entry_auteur e
  .ok { texte := replaceNl ((e.summary).getD [])
      , source := ("arxiv").data
      , titre := replaceNl ((e.title).getD [])
      , auteur := auteur
      , date := .str ((e.published).getD [])
      , url := (e.id).getD [] }

/-- `articles['feed']['entry']`: xmltodict yields a single dict for one search
result and a list for several (the cardinality-polymorphic shape). -/
inductive Entries where
  | one (e : ArxivEntry)
  | many (l : List ArxivEntry)
  deriving DecidableEq

/-- The parsed feed object; `entry` is absent when the search had no result. -/
structure Feed where
  entry : Option Entries
  deriving DecidableEq

/-- The whole parsed XML response; `feed` is absent if the document had no
feed element (`articles['feed']` then raises `KeyError`). -/
structure ParsedResponse where
  feed : Option Feed
  deriving DecidableEq

/-- The entry loop of `get_arxiv_docs`: one document per entry, errors abort
and propagate. -/
def normalize_entries : List ArxivEntry → Except SchemaMismatch (List AcqDoc)
  | [] => .ok []
  | e :: rest => do
    let d ← normalize_entry e
    let ds ← normalize_entries rest
    .ok (d :: ds)

/-- `get_arxiv_docs`, applied to the parsed XML response: a missing `entry`
key yields the empty list; a single entry is wrapped into a one-element list
before the loop. -/
def get_arxiv_docs (articles : ParsedResponse) : Except SchemaMismatch (List AcqDoc) :=
  match articles.feed with
  | none => .error (.missingKey (("feed").data))
  | some feed =>
    match feed.entry with
    | none => .ok []
    | some (.one e) => normalize_entries [e]
    | some (.many l) => normalize_entries l

/-- `get_docs`: Reddit documents first, then Arxiv documents, concatenated;
no exception is caught, so any error propagates unmodified. -/
def get_docs (subs : List Submission) (articles : ParsedResponse) :
    Except SchemaMismatch (List AcqDoc) := do
  let docs_reddit ← get_reddit_docs subs
  let docs_arxiv ← get_arxiv_docs articles
  .ok (docs_reddit ++ docs_arxiv)

/-- A document dict as consumed by `Corpus`: `_create_dataframe` reads only
the `texte` and `source` keys. -/
structure Doc where
  texte : Str
  source : Str
  deriving DecidableEq

/-- One row of the corpus dataframe: the persisted columns `id`, `texte`,
`source`, plus the derived columns `nb_mots`, `nb_phrases`, `nb_chars` that
`get_stats` adds (absent before the first `get_stats` call). -/
structure Row where
  id : Nat
  texte : Str
  source : Str
  nb_mots : Option Nat
  nb_phrases : Option Nat
  nb_chars : Option Nat
  deriving DecidableEq

/-- The `Corpus` object: the original `self.docs` list and the dataframe
`self.df`, modelled as its list of rows. -/
structure Corpus where
  docs : List Doc
  rows : List Row
  deriving DecidableEq

/-- The row-building loop of `_create_dataframe`: `enumerate(docs)` gives ids
`i, i+1, ...` in input order; derived columns absent. -/
def rowsOfDocs : Nat → List Doc → List Row
  | _, [] => []
  | i, d :: rest =>
    { id := i, texte := d.texte, source := d.source
    , nb_mots := none, nb_phrases := none, nb_chars := none } :: rowsOfDocs (i + 1) rest

/-- `Corpus.__init__` followed by `_create_dataframe`: dense ids `0..n-1` in
input order (an empty docs list yields an empty dataframe). -/
def Corpus.construct (docs : List Doc) : Corpus :=
  { docs := docs, rows := rowsOfDocs 0 docs }

/-- `self.df['id'] = range(len(self.df))`: reassign dense ids in order,
leaving every other column unchanged. -/
def renumberFrom : Nat → List Row → List Row
  | _, [] => []
  | i, r :: rest => { r with id := i } :: renumberFrom (i + 1) rest

/-- `Corpus.clean`: on a non-empty dataframe, keep the rows whose `texte` is
strictly longer than `min_length` characters, then reassign dense ids; an
empty dataframe is returned untouched. -/
def Corpus.clean (c : Corpus) (min_length : Nat) : Corpus :=
  if c.rows.isEmpty then c
  else
    { c with rows := renumberFrom 0 (c.rows.filter (fun r => decide (min_length < r.texte.length))) }

/-- `len(str(x).split())`: the number of maximal runs of non-whitespace
characters (the flag records whether the scan is inside a word).
`Char.isWhitespace` covers the ASCII whitespace Python splits on. -/
def nb_mots_aux : Bool → Str → Nat
  | _, [] => 0
  | inWord, c :: rest =>
    if c.isWhitespace then nb_mots_aux false rest
    else (if inWord then 0 else 1) + nb_mots_aux true rest

/-- Word count of one document, `len(str(x).split())`. -/
def nb_mots (l : Str) : Nat := nb_mots_aux false l

/-- Sentence count of one document, `str(x).count('.')`. -/
def nb_phrases (l : Str) : Nat := l.countP (fun c => decide (c = '.'))

/-- Distinct values of a column in order of first appearance (the key order of
the pandas value-counting hash table). -/
def uniqueKeys : List Str → List Str
  | [] => []
  | s :: rest => s :: uniqueKeys (rest.filter (fun t => decide (¬t = s)))
termination_by l => l.length
decreasing_by
  simp only [List.length_cons]
  exact Nat.lt_succ_of_le (List.length_filter_le _ _)

/-- Insert a (value, count) pair into a descending-by-count list, after every
pair of strictly larger or equal count: ties keep the earlier key first. -/
def insertByCount (p : Str × Nat) : List (Str × Nat) → List (Str × Nat)
  | [] => [p]
  | q :: rest => if q.2 ≤ p.2 then p :: q :: rest else q :: insertByCount p rest

/-- Stable insertion sort by descending count. -/
def sortByCountDesc : List (Str × Nat) → List (Str × Nat)
  | [] => []
  | p :: rest => insertByCount p (sortByCountDesc rest)

/-- `Series.value_counts()` on the `source` column: one (value, count) pair
per distinct value, in descending count order, first-seen value first among
equal counts. -/
def value_counts (l : List Str) : List (Str × Nat) :=
  sortByCountDesc ((uniqueKeys l).map (fun k => (k, l.countP (fun t => decide (t = k)))))

/-- Position of the first occurrence of a value in a column (used to state
the first-seen tie-breaking of `value_counts`). -/
def firstIdx (l : List Str) (s : Str) : Nat :=
  l.findIdx (fun t => decide (t = s))

/-- The numbers `get_stats` reports (the source prints them). -/
structure StatsReport where
  total : Nat
  repartition : List (Str × Nat)
  deriving DecidableEq

/-- `Corpus.get_stats`: the pair of the post-state (the method assigns the
derived columns `nb_mots`, `nb_phrases`, `nb_chars` on `self.df`) and the
reported summary; an empty corpus returns early and reports nothing.  The
printed means/min/max derive from the stored columns and are not separately
modelled. -/
def Corpus.get_stats (c : Corpus) : Corpus × Option StatsReport :=
  if c.rows.isEmpty then (c, none)
  else
    ({ c with rows := c.rows.map (fun r =>
        { r with nb_mots := some (nb_mots r.texte)
               , nb_phrases := some (nb_phrases r.texte)
               , nb_chars := some r.texte.length }) }
    , some { total := c.rows.length
           , repartition := value_counts (c.rows.map (fun r => r.source)) })

/-- A character forcing `csv.QUOTE_MINIMAL` to quote the field: the tab
separator, the quote character, carriage return or newline. -/
def needsQuoteChar (c : Char) : Bool :=
  decide (c = '\t') || decide (c = '\n') || decide (c = '\r') || decide (c = '"')

/-- The csv doublequote convention: every quote character is doubled inside a
quoted field. -/
def escapeQuotes : Str → Str
  | [] => []
  | c :: rest => if c = '"' then '"' :: '"' :: escapeQuotes rest else c :: escapeQuotes rest

/-- One field as `to_csv` writes it: wrapped in quotes (with inner quotes
doubled) iff it contains a character that needs quoting, else verbatim. -/
def encodeField (f : Str) : Str :=
  if f.any needsQuoteChar then '"' :: (escapeQuotes f ++ ['"']) else f

/-- The fields of one record joined by the tab separator. -/
def encodeRecord : List Str → Str
  | [] => []
  | [f] => encodeField f
  | f :: rest => encodeField f ++ '\t' :: encodeRecord rest

/-- The whole file: each record terminated by a newline. -/
def encodeFile : List (List Str) → Str
  | [] => []
  | r :: rest => encodeRecord r ++ '\n' :: encodeFile rest

/-- Whether the dataframe carries the derived statistics columns (in any
reachable state either every row does or none). -/
def Corpus.hasStatsCols (c : Corpus) : Bool :=
  c.rows.all (fun r => r.nb_mots.isSome)

/-- The header record, `id`, `texte`, `source`, plus the derived column names
when present. -/
def Corpus.header (c : Corpus) : List Str :=
  [("id").data, ("texte").data, ("source").data]
    ++ (if c.hasStatsCols then
          [("nb_mots").data, ("nb_phrases").data, ("nb_chars").data]
        else [])

/-- One dataframe row as a record of column fields (numbers printed in
decimal); the flag says whether the derived columns are written. -/
def Corpus.toRecord (b : Bool) (r : Row) : List Str :=
  [(Nat.repr r.id).data, r.texte, r.source]
    ++ (if b then
          [(Nat.repr ((r.nb_mots).getD 0)).data
          , (Nat.repr ((r.nb_phrases).getD 0)).data
          , (Nat.repr ((r.nb_chars).getD 0)).data]
        else [])

/-- `Corpus.save`: `none` models the early return on an empty corpus (no file
is written); otherwise the content `to_csv(filename, sep='\t', index=False)`
writes: header record then one record per row. -/
def Corpus.save (c : Corpus) : Option Str :=
  if c.rows.isEmpty then none
  else some (encodeFile (c.header :: c.rows.map (Corpus.toRecord c.hasStatsCols)))

/-- Character-level scanner of the csv reader (`read_csv` with `sep='\t'`,
quote character `"`, doubled quotes): state is (remaining input, inside-quotes
flag, current field reversed, current record reversed, finished records
reversed).  A quote opens a quoted section only at field start; inside quotes
a doubled quote is a literal quote and a single quote closes the section. -/
def csvScan : Str → Bool → Str → List Str → List (List Str) → List (List Str)
  | [], _, curF, curR, acc =>
    if curF.isEmpty && curR.isEmpty then acc.reverse
    else ((curF.reverse :: curR).reverse :: acc).reverse
  | '"' :: '"' :: rest2, true, curF, curR, acc => csvScan rest2 true ('"' :: curF) curR acc
  | '"' :: rest, true, curF, curR, acc => csvScan rest false curF curR acc
  | c :: rest, true, curF, curR, acc => csvScan rest true (c :: curF) curR acc
  | c :: rest, false, curF, curR, acc =>
    if c = '"' ∧ curF.isEmpty then csvScan rest true curF curR acc
    else if c = '\t' then csvScan rest false [] (curF.reverse :: curR) acc
    else if c = '\n' then csvScan rest false [] [] ((curF.reverse :: curR).reverse :: acc)
    else csvScan rest false (c :: curF) curR acc

/-- Parse a whole file into its records. -/
def csvParse (content : Str) : List (List Str) :=
  csvScan content false [] [] []

/-- The spec's `FormatError` taxonomy for `Corpus.load`; constructors record
the concrete exception they model. -/
inductive FormatError where
  /-- pandas `EmptyDataError`: no columns to parse from an empty file. -/
  | emptyData
  /-- `KeyError`: a row is indexed with a column label the header lacks. -/
  | missingColumn (name : Str)
  /-- pandas `ParserError` (Expected N fields, saw M): a data row holds more
  fields than the header establishes. -/
  | parserError
  deriving DecidableEq

/-- The default NA sentinels of `read_csv` (the spellings relevant here): a
cell equal to one of these is converted to the float NaN, not kept as a
string.  The string-typed `Doc` cannot represent NaN, so cells classified
here are exactly where the string-level reading below and the program
diverge. -/
def isNaCell (f : Str) : Bool :=
  decide (f = []) || decide (f = ("NA").data) || decide (f = ("NaN").data)
    || decide (f = ("null").data)

/-- `row[label]`: position of a column label in the header, `KeyError` when
absent. -/
def colIndex (header : List Str) (label : Str) : Except FormatError Nat :=
  match header.findIdx? (fun h => decide (h = label)) with
  | some i => .ok i
  | none => .error (.missingColumn label)

/-- The row loop of `Corpus.load`: per data row, look up `texte` then
`source` by header label.  A row shorter than the header (padded with NA by
pandas) yields the empty field.  This is the string-level reading of the
cells: `read_csv` additionally converts NA-sentinel cells (see `isNaCell`)
to the float NaN and infers numeric dtypes for numeric-looking columns,
conversions the string-typed `Doc` cannot represent. -/
def rowsToDocs (header : List Str) : List (List Str) → Except FormatError (List Doc)
  | [] => .ok []
  | row :: rest => do
    let ti ← colIndex header (("texte").data)
    let si ← colIndex header (("source").data)
    let ds ← rowsToDocs header rest
    .ok ({ texte := row.getD ti [], source := row.getD si [] } :: ds)

/-- The body of `Corpus.load` on the parsed records: the first record is the
header (an empty file has no records and fails); a data row with more fields
than the header raises `ParserError` before any row is read; otherwise docs
keep only `texte` and `source`, and a fresh corpus is constructed with fresh
dense ids.  (The one pandas corner where a wider row does not raise — every
data row exactly one field wider than the header, which `read_csv` reads as
an implicit index column — is not modelled.) -/
def loadRecords : List (List Str) → Except FormatError Corpus
  | [] => .error .emptyData
  | header :: dataRows =>
    if dataRows.any (fun row => decide (header.length < row.length)) then
      .error .parserError
    else do
      let docs ← rowsToDocs header dataRows
      .ok (Corpus.construct docs)

/-- `Corpus.load`: parse the file and rebuild the corpus from its records. -/
def Corpus.load (content : Str) : Except FormatError Corpus :=
  loadRecords (csvParse content)

/-! ### Concrete inputs used by witnesses and counterexamples -/

/-- A corpus whose only document has empty text (reachable: an arxiv entry
with no summary normalizes to empty text). -/
def corpusNaC1 : Corpus := Corpus.construct
  [ { texte := [], source := ("arxiv").data } ]

/-- A submission whose title and selftext hold newlines. -/
def subC4 : Submission :=
  { title := some (("Line1\nLine2").data), selftext := some (("Body\nmore").data)
  , author := none, created_utc := 0, permalink := ("/r/x").data }

/-- An entry whose summary holds a newline. -/
def entC4 : ArxivEntry :=
  { summary := some (("Sum\nmary").data), title := none, author := .absent
  , published := none, id := none }

/-- The document `get_reddit_docs` builds from `subC4`. -/
def redditDocC4 : AcqDoc :=
  { texte := ("Line1 Line2 Body more").data, source := ("reddit").data
  , titre := ("Line1\nLine2").data, auteur := ("None").data, date := .num 0
  , url := ("https://reddit.com/r/x").data }

/-- The document `get_arxiv_docs` builds from `entC4`. -/
def arxivDocC4 : AcqDoc :=
  { texte := ("Sum mary").data, source := ("arxiv").data, titre := []
  , auteur := ("Unknown").data, date := .str [], url := [] }

/-- A one-document corpus for the `get_stats` frame counterexample. -/
def corpusC5 : Corpus := Corpus.construct
  [ { texte := ("Hello world.").data, source := ("discussion").data } ]

/-- Two discussion documents and one preprint document, in that order. -/
def corpusC6 : Corpus := Corpus.construct
  [ { texte := ("aaa").data, source := ("discussion").data }
  , { texte := ("bb").data, source := ("preprint").data }
  , { texte := ("c").data, source := ("discussion").data } ]

/-- A submission with no selftext attribute. -/
def subC8 : Submission :=
  { title := some (("t").data), selftext := none, author := none
  , created_utc := 0, permalink := [] }

/-- An entry whose summary container is entirely missing. -/
def entC8 : ArxivEntry :=
  { summary := none, title := none, author := .absent, published := none, id := none }

/-- An entry with a single author object. -/
def entC9single : ArxivEntry :=
  { summary := none, title := none
  , author := .single { name := some (("Alice").data) }, published := none, id := none }

/-- An entry with a list of author objects. -/
def entC9list : ArxivEntry :=
  { summary := none, title := none
  , author := .several [{ name := some (("Bob").data) }, { name := some (("Carol").data) }]
  , published := none, id := none }

/-- An entry with no author field. -/
def entC9absent : ArxivEntry :=
  { summary := none, title := none, author := .absent, published := none, id := none }

/-! ### Helper lemmas about normalization -/

theorem replaceNl_no_nl (l : Str) : '\n' ∉ replaceNl l := by
  induction l with
  | nil => simp [replaceNl]
  | cons c rest ih =>
    simp only [replaceNl, List.mem_cons]
    rintro (h | h)
    · by_cases hc : c = '\n'
      · rw [if_pos hc] at h
        exact absurd h (by decide)
      · rw [if_neg hc] at h
        exact hc h.symm
    · exact ih h

theorem count_nl_replaceNl (l : Str) : (replaceNl l).count '\n' = 0 :=
  List.count_eq_zero.mpr (replaceNl_no_nl l)

/-! ### Helper lemmas about row construction and renumbering -/

theorem rowsOfDocs_map_id (i : Nat) (docs : List Doc) :
    (rowsOfDocs i docs).map (fun r => r.id) = List.range' i docs.length := by
  induction docs generalizing i with
  | nil => simp [rowsOfDocs]
  | cons d rest ih => simp [rowsOfDocs, List.range', ih]

theorem rowsOfDocs_map_ts (i : Nat) (docs : List Doc) :
    (rowsOfDocs i docs).map (fun r => (r.texte, r.source))
      = docs.map (fun d => (d.texte, d.source)) := by
  induction docs generalizing i with
  | nil => simp [rowsOfDocs]
  | cons d rest ih => simp [rowsOfDocs, ih]

theorem renumberFrom_map_id (i : Nat) (l : List Row) :
    (renumberFrom i l).map (fun r => r.id) = List.range' i l.length := by
  induction l generalizing i with
  | nil => simp [renumberFrom]
  | cons r rest ih => simp [renumberFrom, List.range', ih]

theorem renumberFrom_map_ts (i : Nat) (l : List Row) :
    (renumberFrom i l).map (fun r => (r.texte, r.source))
      = l.map (fun r => (r.texte, r.source)) := by
  induction l generalizing i with
  | nil => simp [renumberFrom]
  | cons r rest ih => simp [renumberFrom, ih]

theorem renumberFrom_length (i : Nat) (l : List Row) :
    (renumberFrom i l).length = l.length := by
  induction l generalizing i with
  | nil => simp [renumberFrom]
  | cons r rest ih => simp [renumberFrom, ih]

theorem renumberFrom_texte_pred (p : Str → Prop) (i : Nat) (l : List Row)
    (h : ∀ r ∈ l, p r.texte) : ∀ r ∈ renumberFrom i l, p r.texte := by
  induction l generalizing i with
  | nil => simp [renumberFrom]
  | cons r rest ih =>
    intro r' hr'
    simp only [renumberFrom, List.mem_cons] at hr'
    rcases hr' with rfl | hr'
    · exact h r (by simp)
    · exact ih (i + 1) (fun x hx => h x (List.mem_cons_of_mem r hx)) r' hr'

theorem renumberFrom_idem (i : Nat) (l : List Row) :
    renumberFrom i (renumberFrom i l) = renumberFrom i l := by
  induction l generalizing i with
  | nil => simp [renumberFrom]
  | cons r rest ih => simp [renumberFrom, ih]

/-! ### Helper lemmas about value counting and sorting -/

theorem uniqueKeys_subset {a : Str} : ∀ {l : List Str}, a ∈ uniqueKeys l → a ∈ l := by
  intro l
  induction l using uniqueKeys.induct with
  | case1 => simp [uniqueKeys]
  | case2 s rest ih =>
    simp only [uniqueKeys, List.mem_cons]
    rintro (rfl | h)
    · exact Or.inl rfl
    · exact Or.inr (List.mem_of_mem_filter (ih h))

theorem mem_uniqueKeys {a : Str} : ∀ {l : List Str}, a ∈ l → a ∈ uniqueKeys l := by
  intro l
  induction l using uniqueKeys.induct with
  | case1 => simp [uniqueKeys]
  | case2 s rest ih =>
    simp only [uniqueKeys, List.mem_cons]
    rintro (rfl | h)
    · exact Or.inl rfl
    · by_cases hs : a = s
      · exact Or.inl hs
      · exact Or.inr (ih (List.mem_filter.mpr ⟨h, by simp [hs]⟩))

theorem nodup_uniqueKeys : ∀ (l : List Str), (uniqueKeys l).Nodup := by
  intro l
  induction l using uniqueKeys.induct with
  | case1 => simp [uniqueKeys]
  | case2 s rest ih =>
    rw [uniqueKeys]
    refine List.Pairwise.cons (fun a ha hsa => ?_) ih
    have := List.of_mem_filter (uniqueKeys_subset ha)
    simp [← hsa] at this

theorem countP_filter_ne (s k : Str) (l : List Str) (h : ¬k = s) :
    (l.filter (fun t => decide (¬t = s))).countP (fun t => decide (t = k))
      = l.countP (fun t => decide (t = k)) := by
  rw [List.countP_filter]
  refine List.countP_congr (fun x _ => ?_)
  simp only [Bool.and_eq_true, decide_eq_true_eq]
  constructor
  · rintro ⟨hx, _⟩
    exact hx
  · rintro rfl
    exact ⟨rfl, h⟩

theorem sum_uniqueKeys_countP : ∀ (l : List Str),
    ((uniqueKeys l).map (fun k => l.countP (fun t => decide (t = k)))).sum = l.length := by
  intro l
  induction l using uniqueKeys.induct with
  | case1 => simp [uniqueKeys]
  | case2 s rest ih =>
    rw [uniqueKeys, List.map_cons, List.sum_cons]
    have hmap : (uniqueKeys (rest.filter (fun t => decide (¬t = s)))).map
          (fun k => (s :: rest).countP (fun t => decide (t = k)))
        = (uniqueKeys (rest.filter (fun t => decide (¬t = s)))).map
          (fun k => (rest.filter (fun t => decide (¬t = s))).countP (fun t => decide (t = k))) := by
      refine List.map_congr_left (fun k hk => ?_)
      have hks : ¬k = s := by
        have := List.of_mem_filter (uniqueKeys_subset hk)
        simpa using this
      rw [List.countP_cons, countP_filter_ne s k rest hks]
      have hsk : ¬s = k := fun h => hks h.symm
      simp [hsk]
    rw [hmap, ih]
    have hcnt : (s :: rest).countP (fun t => decide (t = s))
        = rest.countP (fun t => decide (t = s)) + 1 :=
      List.countP_cons_of_pos _ _ (by simp)
    have hlen : rest.length = rest.countP (fun t => decide (¬t = s))
        + rest.countP (fun t => decide (t = s)) := by
      have := List.length_eq_countP_add_countP (fun t => decide (¬t = s)) rest
      rw [this]
      congr 1
      refine List.countP_congr (fun x _ => ?_)
      simp
    have hfl : (rest.filter (fun t => decide (¬t = s))).length
        = rest.countP (fun t => decide (¬t = s)) :=
      (List.countP_eq_length_filter _ rest).symm
    simp only [List.length_cons]
    omega

theorem mem_insertByCount {a p : Str × Nat} :
    ∀ {l : List (Str × Nat)}, a ∈ insertByCount p l → a = p ∨ a ∈ l := by
  intro l
  induction l with
  | nil => simp [insertByCount]
  | cons q rest ih =>
    simp only [insertByCount]
    split
    · simp only [List.mem_cons]
      rintro (rfl | h)
      · exact Or.inl rfl
      · exact Or.inr h
    · simp only [List.mem_cons]
      rintro (rfl | h)
      · exact Or.inr (Or.inl rfl)
      · rcases ih h with rfl | h2
        · exact Or.inl rfl
        · exact Or.inr (Or.inr h2)

theorem insertByCount_perm (p : Str × Nat) :
    ∀ (l : List (Str × Nat)), (insertByCount p l).Perm (p :: l) := by
  intro l
  induction l with
  | nil => simp [insertByCount]
  | cons q rest ih =>
    simp only [insertByCount]
    split
    · exact List.Perm.refl _
    · exact (ih.cons q).trans (List.Perm.swap p q rest)

theorem sortByCountDesc_perm : ∀ (l : List (Str × Nat)), (sortByCountDesc l).Perm l := by
  intro l
  induction l with
  | nil => simp [sortByCountDesc]
  | cons p rest ih =>
    exact (insertByCount_perm p (sortByCountDesc rest)).trans (ih.cons p)

theorem sorted_insertByCount (p : Str × Nat) :
    ∀ {l : List (Str × Nat)}, l.Pairwise (fun a b => b.2 ≤ a.2) →
      (insertByCount p l).Pairwise (fun a b => b.2 ≤ a.2) := by
  intro l
  induction l with
  | nil => simp [insertByCount]
  | cons q rest ih =>
    intro h
    rcases List.pairwise_cons.mp h with ⟨hq, hrest⟩
    rw [insertByCount]
    split
    · refine List.pairwise_cons.mpr ⟨?_, h⟩
      intro b hb
      rcases List.mem_cons.mp hb with rfl | hb2
      · assumption
      · exact le_trans (hq b hb2) (by assumption)
    · refine List.pairwise_cons.mpr ⟨?_, ih hrest⟩
      intro b hb
      rcases mem_insertByCount hb with rfl | hb2
      · omega
      · exact hq b hb2

theorem sorted_sortByCountDesc : ∀ (l : List (Str × Nat)),
    (sortByCountDesc l).Pairwise (fun a b => b.2 ≤ a.2) := by
  intro l
  induction l with
  | nil => simp [sortByCountDesc]
  | cons p rest ih => exact sorted_insertByCount p ih

theorem value_counts_perm (l : List Str) :
    (value_counts l).Perm
      ((uniqueKeys l).map (fun k => (k, l.countP (fun t => decide (t = k))))) :=
  sortByCountDesc_perm _

theorem sum_value_counts (l : List Str) :
    ((value_counts l).map (fun p => p.2)).sum = l.length := by
  rw [((value_counts_perm l).map (fun p => p.2)).sum_eq, List.map_map]
  simpa using sum_uniqueKeys_countP l

theorem value_counts_keys_perm (l : List Str) :
    ((value_counts l).map (fun p => p.1)).Perm (uniqueKeys l) := by
  have h := (value_counts_perm l).map (fun p => p.1)
  rw [List.map_map] at h
  have hfun : ((fun p : Str × Nat => p.1) ∘ fun k => (k, l.countP (fun t => decide (t = k))))
      = fun k => k := rfl
  rw [hfun, List.map_id'] at h
  exact h

theorem nodup_value_counts_keys (l : List Str) :
    ((value_counts l).map (fun p => p.1)).Nodup :=
  ((value_counts_keys_perm l).nodup_iff).mpr (nodup_uniqueKeys l)

theorem mem_value_counts_keys (l : List Str) (s : Str) :
    s ∈ (value_counts l).map (fun p => p.1) ↔ s ∈ l := by
  rw [(value_counts_keys_perm l).mem_iff]
  exact ⟨fun h => uniqueKeys_subset h, fun h => mem_uniqueKeys h⟩

theorem value_counts_counts (l : List Str) :
    ∀ p ∈ value_counts l, p.2 = l.countP (fun t => decide (t = p.1)) := by
  intro p hp
  have := (value_counts_perm l).mem_iff.mp hp
  rcases List.mem_map.mp this with ⟨k, _, rfl⟩
  rfl

/-! ### Helper lemmas about the csv layer -/

theorem needsQuoteChar_false {c : Char} (h : needsQuoteChar c = false) :
    ¬c = '\t' ∧ ¬c = '\n' ∧ ¬c = '\r' ∧ ¬c = '"' := by
  simp only [needsQuoteChar, Bool.or_eq_false_iff, decide_eq_false_iff_not] at h
  exact ⟨h.1.1.1, h.1.1.2, h.1.2, h.2⟩

theorem csvScan_unquoted (f : Str) (hf : ∀ c ∈ f, needsQuoteChar c = false) :
    ∀ (rest curF : Str) (curR : List Str) (acc : List (List Str)),
      csvScan (f ++ rest) false curF curR acc
        = csvScan rest false (f.reverse ++ curF) curR acc := by
  induction f with
  | nil => intro rest curF curR acc; simp
  | cons c f ih =>
    intro rest curF curR acc
    obtain ⟨ht, hn, hr, hq⟩ := needsQuoteChar_false (hf c (by simp))
    rw [List.cons_append]
    rw [show csvScan (c :: (f ++ rest)) false curF curR acc
        = csvScan (f ++ rest) false (c :: curF) curR acc by
      simp [csvScan, ht, hn, hq]]
    rw [ih (fun x hx => hf x (by simp [hx])) rest (c :: curF) curR acc]
    simp

theorem csvScan_quoted (f : Str) :
    ∀ (rest : Str), rest.head? ≠ some '"' →
      ∀ (curF : Str) (curR : List Str) (acc : List (List Str)),
        csvScan (escapeQuotes f ++ '"' :: rest) true curF curR acc
          = csvScan rest false (f.reverse ++ curF) curR acc := by
  induction f with
  | nil =>
    intro rest hrest curF curR acc
    cases rest with
    | nil => simp [escapeQuotes, csvScan]
    | cons d rest2 =>
      have hd : ¬d = '"' := by
        intro h
        exact hrest (by simp [h])
      simp [escapeQuotes, csvScan, hd]
  | cons c f ih =>
    intro rest hrest curF curR acc
    by_cases hc : c = '"'
    · subst hc
      rw [show escapeQuotes ('"' :: f) = '"' :: '"' :: escapeQuotes f by simp [escapeQuotes]]
      rw [List.cons_append, List.cons_append]
      rw [show csvScan ('"' :: '"' :: (escapeQuotes f ++ '"' :: rest)) true curF curR acc
          = csvScan (escapeQuotes f ++ '"' :: rest) true ('"' :: curF) curR acc by
        simp [csvScan]]
      rw [ih rest hrest ('"' :: curF) curR acc]
      simp
    · rw [show escapeQuotes (c :: f) = c :: escapeQuotes f by simp [escapeQuotes, hc]]
      rw [List.cons_append]
      rw [show csvScan (c :: (escapeQuotes f ++ '"' :: rest)) true curF curR acc
          = csvScan (escapeQuotes f ++ '"' :: rest) true (c :: curF) curR acc by
        simp [csvScan, hc]]
      rw [ih rest hrest (c :: curF) curR acc]
      simp

theorem csvScan_field (f : Str) (rest : Str) (hrest : rest.head? ≠ some '"')
    (curR : List Str) (acc : List (List Str)) :
    csvScan (encodeField f ++ rest) false [] curR acc
      = csvScan rest false f.reverse curR acc := by
  rw [encodeField]
  by_cases hq : f.any needsQuoteChar = true
  · rw [if_pos hq]
    rw [List.cons_append]
    rw [show csvScan ('"' :: ((escapeQuotes f ++ ['"']) ++ rest)) false [] curR acc
        = csvScan ((escapeQuotes f ++ ['"']) ++ rest) true [] curR acc by
      simp [csvScan]]
    rw [List.append_assoc]
    rw [show (['"'] ++ rest : Str) = '"' :: rest by simp]
    rw [csvScan_quoted f rest hrest [] curR acc]
    simp
  · rw [if_neg hq]
    have hf : ∀ c ∈ f, needsQuoteChar c = false := by
      intro c hc
      by_contra hcc
      exact hq (List.any_eq_true.mpr ⟨c, hc, by simpa using hcc⟩)
    rw [csvScan_unquoted f hf rest [] curR acc]
    simp

theorem csvScan_record : ∀ (fs : List Str) (f : Str) (rest : Str)
    (curR : List Str) (acc : List (List Str)),
    csvScan (encodeRecord (f :: fs) ++ '\n' :: rest) false [] curR acc
      = csvScan rest false [] [] ((curR.reverse ++ f :: fs) :: acc) := by
  intro fs
  induction fs with
  | nil =>
    intro f rest curR acc
    rw [show encodeRecord [f] = encodeField f from rfl]
    rw [csvScan_field f ('\n' :: rest) (by simp) curR acc]
    rw [show csvScan ('\n' :: rest) false f.reverse curR acc
        = csvScan rest false [] [] ((f.reverse.reverse :: curR).reverse :: acc) by
      simp [csvScan]]
    simp
  | cons g fs ih =>
    intro f rest curR acc
    rw [show encodeRecord (f :: g :: fs) = encodeField f ++ '\t' :: encodeRecord (g :: fs)
        from rfl]
    rw [List.append_assoc]
    rw [show ('\t' :: encodeRecord (g :: fs)) ++ '\n' :: rest
        = '\t' :: (encodeRecord (g :: fs) ++ '\n' :: rest) from rfl]
    rw [csvScan_field f _ (by simp) curR acc]
    rw [show csvScan ('\t' :: (encodeRecord (g :: fs) ++ '\n' :: rest)) false f.reverse curR acc
        = csvScan (encodeRecord (g :: fs) ++ '\n' :: rest) false [] (f.reverse.reverse :: curR) acc by
      simp [csvScan]]
    rw [List.reverse_reverse] at *
    rw [ih g rest (f :: curR) acc]
    simp

theorem csvScan_file : ∀ (records : List (List Str)) (acc : List (List Str)),
    (∀ r ∈ records, r ≠ []) →
    csvScan (encodeFile records) false [] [] acc = acc.reverse ++ records := by
  intro records
  induction records with
  | nil => intro acc _; simp [encodeFile, csvScan]
  | cons r rs ih =>
    intro acc h
    match r, h r (by simp) with
    | f :: fs, _ =>
      rw [show encodeFile ((f :: fs) :: rs) = encodeRecord (f :: fs) ++ '\n' :: encodeFile rs
          from rfl]
      rw [csvScan_record fs f (encodeFile rs) [] acc]
      simp only [List.reverse_nil, List.nil_append]
      rw [ih ((f :: fs) :: acc) (fun x hx => h x (by simp [hx]))]
      simp

/-- Round trip at the file level: parsing an encoded file of nonempty records
recovers them exactly. -/
theorem csvParse_encodeFile (records : List (List Str)) (h : ∀ r ∈ records, r ≠ []) :
    csvParse (encodeFile records) = records := by
  rw [csvParse, csvScan_file records [] h]
  simp

/-! ### Helper lemmas about save and load -/

theorem rowsToDocs_ok (header : List Str) (ti si : Nat)
    (hti : colIndex header (("texte").data) = .ok ti)
    (hsi : colIndex header (("source").data) = .ok si) :
    ∀ (rows : List (List Str)),
      rowsToDocs header rows
        = .ok (rows.map (fun row => { texte := row.getD ti [], source := row.getD si [] })) := by
  intro rows
  induction rows with
  | nil => rfl
  | cons row rest ih =>
    rw [rowsToDocs, hti, hsi, ih]
    rfl

theorem toRecord_getD_texte (b : Bool) (r : Row) : (Corpus.toRecord b r).getD 1 [] = r.texte := by
  cases b <;> rfl

theorem toRecord_getD_source (b : Bool) (r : Row) : (Corpus.toRecord b r).getD 2 [] = r.source := by
  cases b <;> rfl

theorem toRecord_ne_nil (b : Bool) (r : Row) : Corpus.toRecord b r ≠ [] := by
  cases b <;> simp [Corpus.toRecord]

theorem toRecord_length (c : Corpus) (r : Row) :
    (Corpus.toRecord c.hasStatsCols r).length = c.header.length := by
  cases hb : c.hasStatsCols <;> simp [Corpus.toRecord, Corpus.header, hb]

theorem header_ne_nil (c : Corpus) : c.header ≠ [] := by
  rw [Corpus.header]
  simp

theorem colIndex_header_texte (c : Corpus) : colIndex c.header (("texte").data) = .ok 1 := by
  rw [Corpus.header]
  cases hb : c.hasStatsCols <;> simp [hb] <;> rfl

theorem colIndex_header_source (c : Corpus) : colIndex c.header (("source").data) = .ok 2 := by
  rw [Corpus.header]
  cases hb : c.hasStatsCols <;> simp [hb] <;> rfl

/-- The quoting layer of save/load is lossless: at the character level
(before the NA/dtype conversion `read_csv` applies to the parsed cells, see
`isNaCell`), loading a saved non-empty corpus recovers the (texte, source)
sequence exactly, for arbitrary text including tabs, newlines and non-ASCII
characters. -/
theorem save_roundtrip_core (c : Corpus) (h : c.rows ≠ []) :
    ∃ (content : Str) (c2 : Corpus),
      Corpus.save c = some content ∧ Corpus.load content = Except.ok c2 ∧
        c2.rows.map (fun r => (r.texte, r.source)) = c.rows.map (fun r => (r.texte, r.source)) := by
  have hcond : ¬(c.rows.isEmpty = true) := by
    simpa [List.isEmpty_iff] using h
  refine ⟨encodeFile (c.header :: c.rows.map (Corpus.toRecord c.hasStatsCols))
    , Corpus.construct ((c.rows.map (Corpus.toRecord c.hasStatsCols)).map
        (fun row => { texte := row.getD 1 [], source := row.getD 2 [] }))
    , ?_, ?_, ?_⟩
  · rw [Corpus.save, if_neg hcond]
  · have hparse : csvParse (encodeFile (c.header :: c.rows.map (Corpus.toRecord c.hasStatsCols)))
        = c.header :: c.rows.map (Corpus.toRecord c.hasStatsCols) := by
      apply csvParse_encodeFile
      intro r hr
      rcases List.mem_cons.mp hr with rfl | hr2
      · exact header_ne_nil c
      · rcases List.mem_map.mp hr2 with ⟨row, _, rfl⟩
        exact toRecord_ne_nil _ _
    have hnr : ((c.rows.map (Corpus.toRecord c.hasStatsCols)).any
        (fun row => decide (c.header.length < row.length))) = false := by
      rw [List.any_eq_false]
      intro row hrow
      rcases List.mem_map.mp hrow with ⟨r, _, rfl⟩
      simp [toRecord_length]
    rw [Corpus.load, hparse, loadRecords, hnr
      , rowsToDocs_ok c.header 1 2 (colIndex_header_texte c) (colIndex_header_source c)]
    rfl
  · simp only [Corpus.construct]
    rw [rowsOfDocs_map_ts]
    simp only [List.map_map]
    refine List.map_congr_left (fun r _ => ?_)
    simp only [Function.comp]
    rw [show ((Corpus.toRecord c.hasStatsCols r).getD 1 []) = r.texte from toRecord_getD_texte _ r]
    rw [show ((Corpus.toRecord c.hasStatsCols r).getD 2 []) = r.source from toRecord_getD_source _ r]

theorem clean_map_ts (c : Corpus) (m : Nat) :
    (Corpus.clean c m).rows.map (fun r => (r.texte, r.source))
      = (c.rows.filter (fun r => decide (m < r.texte.length))).map
          (fun r => (r.texte, r.source)) := by
  rw [Corpus.clean]
  split
  · rename_i hemp
    have hnil : c.rows = [] := by simpa [List.isEmpty_iff] using hemp
    simp [hnil]
  · simp only []
    rw [renumberFrom_map_ts]

theorem clean_retained (c : Corpus) (m : Nat) :
    ∀ r ∈ (Corpus.clean c m).rows, m < r.texte.length := by
  rw [Corpus.clean]
  split
  · rename_i hemp
    have hnil : c.rows = [] := by simpa [List.isEmpty_iff] using hemp
    simp [hnil]
  · simp only []
    refine renumberFrom_texte_pred (fun t => m < t.length) 0 _ (fun r hr => ?_)
    have := List.of_mem_filter hr
    simpa using this

theorem clean_length_le (c : Corpus) (m : Nat) :
    (Corpus.clean c m).rows.length ≤ c.rows.length := by
  rw [Corpus.clean]
  split
  · exact le_refl _
  · simp only []
    rw [renumberFrom_length]
    exact List.length_filter_le _ _

theorem clean_idem (c : Corpus) (m : Nat) :
    Corpus.clean (Corpus.clean c m) m = Corpus.clean c m := by
  by_cases hemp : c.rows.isEmpty = true
  · have h1 : Corpus.clean c m = c := by rw [Corpus.clean, if_pos hemp]
    rw [h1]
    exact h1
  · have h2 : Corpus.clean c m
        = { c with rows := renumberFrom 0 (c.rows.filter (fun r => decide (m < r.texte.length))) } := by
      rw [Corpus.clean, if_neg hemp]
    have hkept : ∀ r ∈ renumberFrom 0 (c.rows.filter (fun r => decide (m < r.texte.length))),
        m < r.texte.length := by
      refine renumberFrom_texte_pred (fun t => m < t.length) 0 _ (fun r hr => ?_)
      have := List.of_mem_filter hr
      simpa using this
    rw [h2]
    by_cases hR : (renumberFrom 0 (c.rows.filter (fun r => decide (m < r.texte.length)))).isEmpty = true
    · rw [Corpus.clean, if_pos hR]
    · rw [Corpus.clean, if_neg hR]
      have hfi : (renumberFrom 0 (c.rows.filter (fun r => decide (m < r.texte.length)))).filter
            (fun r => decide (m < r.texte.length))
          = renumberFrom 0 (c.rows.filter (fun r => decide (m < r.texte.length))) :=
        List.filter_eq_self.mpr (fun r hr => by simpa using hkept r hr)
      have : renumberFrom 0 ((renumberFrom 0 (c.rows.filter
            (fun r => decide (m < r.texte.length)))).filter (fun r => decide (m < r.texte.length)))
          = renumberFrom 0 (c.rows.filter (fun r => decide (m < r.texte.length))) := by
        rw [hfi, renumberFrom_idem]
      simp only [this]

/-! ### Helper lemmas about get_stats and the acquisition functions -/

theorem get_stats_rows_proj (c : Corpus) :
    (Corpus.get_stats c).1.rows.map (fun r => (r.id, r.texte, r.source))
      = c.rows.map (fun r => (r.id, r.texte, r.source)) := by
  rw [Corpus.get_stats]
  split
  · rfl
  · simp only []
    rw [List.map_map]
    exact List.map_congr_left (fun r _ => rfl)

theorem get_stats_docs (c : Corpus) : (Corpus.get_stats c).1.docs = c.docs := by
  rw [Corpus.get_stats]
  split <;> rfl

theorem get_stats_report (c : Corpus) (h : ¬c.rows.isEmpty = true) :
    (Corpus.get_stats c).2
      = some { total := c.rows.length
             , repartition := value_counts (c.rows.map (fun r => r.source)) } := by
  rw [Corpus.get_stats, if_neg h]

theorem get_docs_error_of_reddit (s : Submission) (err : SchemaMismatch)
    (he : normalize_submission s = .error err) (rest : List Submission)
    (articles : ParsedResponse) :
    get_docs (s :: rest) articles = .error err := by
  rw [get_docs, get_reddit_docs, he]
  rfl

theorem normalize_submission_error_of_missing (s : Submission)
    (h : s.title = none ∨ s.selftext = none) :
    ∃ err, normalize_submission s = .error err := by
  rcases s with ⟨title, selftext, author, cu, pl⟩
  rcases h with h | h
  · rw [normalize_submission]
    simp only at h
    rw [h]
    exact ⟨_, rfl⟩
  · simp only at h
    rw [normalize_submission, h]
    cases title <;> exact ⟨_, rfl⟩

theorem normalize_submission_no_nl {s : Submission} {d : AcqDoc}
    (h : normalize_submission s = .ok d) : d.texte.count '\n' = 0 := by
  rcases s with ⟨title, selftext, author, cu, pl⟩
  cases title with
  | none => simp [normalize_submission] at h
  | some t =>
    cases selftext with
    | none => simp [normalize_submission] at h
    | some b =>
      rw [normalize_submission] at h
      simp only [Except.ok.injEq] at h
      rw [← h]
      exact count_nl_replaceNl _

theorem normalize_entry_ok_of_auteur {e : ArxivEntry} {a : Str}
    (h : entry_auteur e = .ok a) :
    normalize_entry e
      = .ok { texte := replaceNl ((e.summary).getD [])
            , source := ("arxiv").data
            , titre := replaceNl ((e.title).getD [])
            , auteur := a
            , date := .str ((e.published).getD [])
            , url := (e.id).getD [] } := by
  rw [normalize_entry, h]
  rfl

theorem normalize_entry_no_nl {e : ArxivEntry} {d : AcqDoc}
    (h : normalize_entry e = .ok d) : d.texte.count '\n' = 0 := by
  cases ha : entry_auteur e with
  | error err =>
    rw [normalize_entry, ha] at h
    exact Except.noConfusion (show (Except.error err : Except SchemaMismatch AcqDoc) = Except.ok d from h)
  | ok a =>
    rw [normalize_entry_ok_of_auteur ha] at h
    simp only [Except.ok.injEq] at h
    rw [← h]
    exact count_nl_replaceNl _

theorem clean_map_id (c : Corpus) (m : Nat) :
    (Corpus.clean c m).rows.map (fun r => r.id)
      = List.range (Corpus.clean c m).rows.length := by
  rw [Corpus.clean]
  split
  · rename_i hemp
    have hnil : c.rows = [] := by simpa [List.isEmpty_iff] using hemp
    simp [hnil]
  · simp only []
    rw [renumberFrom_map_id, renumberFrom_length, List.range_eq_range']

/-! ### Helper lemmas about first-seen tie-breaking -/

theorem firstIdx_filter_lt (p : Str → Bool) :
    ∀ (l : List Str) (a b : Str), p a = true → p b = true → a ∈ l.filter p →
      firstIdx (l.filter p) a < firstIdx (l.filter p) b → firstIdx l a < firstIdx l b := by
  intro l
  induction l with
  | nil =>
    intro a b _ _ ha _
    simp at ha
  | cons h t ih =>
    intro a b pa pb ha hlt
    by_cases hph : p h = true
    · rw [List.filter_cons, if_pos hph] at ha hlt
      by_cases hha : h = a
      · subst hha
        have hhb : ¬h = b := by
          intro he
          rw [firstIdx, firstIdx, List.findIdx_cons, List.findIdx_cons] at hlt
          simp [he] at hlt
        rw [firstIdx, firstIdx, List.findIdx_cons, List.findIdx_cons]
        have h2 : decide (h = b) = false := by
          simp only [decide_eq_false_iff_not]
          exact hhb
        simp [h2]
      · by_cases hhb : h = b
        · subst hhb
          rw [firstIdx, firstIdx, List.findIdx_cons, List.findIdx_cons] at hlt
          have h2 : decide (h = a) = false := by
            simp only [decide_eq_false_iff_not]
            exact hha
          simp [h2] at hlt
        · have h2 : decide (h = a) = false := by
            simp only [decide_eq_false_iff_not]
            exact hha
          have h3 : decide (h = b) = false := by
            simp only [decide_eq_false_iff_not]
            exact hhb
          rw [firstIdx, firstIdx, List.findIdx_cons, List.findIdx_cons] at hlt
          simp only [h2, h3, Bool.cond_false] at hlt
          have ha2 : a ∈ t.filter p := by
            rcases List.mem_cons.mp ha with rfl | ha2
            · exact absurd rfl hha
            · exact ha2
          have harg : firstIdx (t.filter p) a < firstIdx (t.filter p) b := by
            rw [firstIdx, firstIdx]
            omega
          have hres := ih a b pa pb ha2 harg
          rw [firstIdx, firstIdx] at hres
          rw [firstIdx, firstIdx, List.findIdx_cons, List.findIdx_cons]
          simp only [h2, h3, Bool.cond_false]
          omega
    · have hha : ¬h = a := by
        intro he
        rw [he, pa] at hph
        exact hph rfl
      have hhb : ¬h = b := by
        intro he
        rw [he, pb] at hph
        exact hph rfl
      rw [List.filter_cons, if_neg hph] at ha hlt
      have h2 : decide (h = a) = false := by
        simp only [decide_eq_false_iff_not]
        exact hha
      have h3 : decide (h = b) = false := by
        simp only [decide_eq_false_iff_not]
        exact hhb
      have hres := ih a b pa pb ha hlt
      rw [firstIdx, firstIdx] at hres
      rw [firstIdx, firstIdx, List.findIdx_cons, List.findIdx_cons]
      simp only [h2, h3, Bool.cond_false]
      omega

theorem pairwise_firstIdx_uniqueKeys : ∀ (l : List Str),
    (uniqueKeys l).Pairwise (fun a b => firstIdx l a < firstIdx l b) := by
  intro l
  induction l using uniqueKeys.induct with
  | case1 => simp [uniqueKeys]
  | case2 s rest ih =>
    rw [uniqueKeys]
    refine List.Pairwise.cons ?_ ?_
    · intro b hb
      have hbs : ¬b = s := by simpa using List.of_mem_filter (uniqueKeys_subset hb)
      rw [firstIdx, firstIdx, List.findIdx_cons, List.findIdx_cons]
      have h2 : decide (s = b) = false := by
        simp only [decide_eq_false_iff_not]
        exact fun he => hbs he.symm
      simp [h2]
    · refine ih.imp_of_mem ?_
      intro a b hma hmb hab
      have hpa := List.of_mem_filter (uniqueKeys_subset hma)
      have hpb := List.of_mem_filter (uniqueKeys_subset hmb)
      have has : ¬a = s := by simpa using hpa
      have hbs : ¬b = s := by simpa using hpb
      have h1 : firstIdx rest a < firstIdx rest b :=
        firstIdx_filter_lt _ rest a b hpa hpb (uniqueKeys_subset hma) hab
      rw [firstIdx, firstIdx] at h1
      rw [firstIdx, firstIdx, List.findIdx_cons, List.findIdx_cons]
      have h2 : decide (s = a) = false := by
        simp only [decide_eq_false_iff_not]
        exact fun he => has he.symm
      have h3 : decide (s = b) = false := by
        simp only [decide_eq_false_iff_not]
        exact fun he => hbs he.symm
      simp only [h2, h3, Bool.cond_false]
      omega

theorem insertByCount_stable (R : Str × Nat → Str × Nat → Prop) (p : Str × Nat) :
    ∀ {l : List (Str × Nat)}, l.Pairwise (fun a b => b.2 ≤ a.2) →
      l.Pairwise (fun a b => b.2 < a.2 ∨ (b.2 = a.2 ∧ R a b)) →
      (∀ q ∈ l, R p q) →
      (insertByCount p l).Pairwise (fun a b => b.2 < a.2 ∨ (b.2 = a.2 ∧ R a b)) := by
  intro l
  induction l with
  | nil =>
    intro _ _ _
    simp [insertByCount]
  | cons q rest ih =>
    intro hsorted hD hR
    rcases List.pairwise_cons.mp hsorted with ⟨hq_le, hsorted_rest⟩
    rcases List.pairwise_cons.mp hD with ⟨hqD, hD_rest⟩
    rw [insertByCount]
    split
    · rename_i hle
      refine List.pairwise_cons.mpr ⟨?_, hD⟩
      intro b hb
      have hb2 : b.2 ≤ p.2 := by
        rcases List.mem_cons.mp hb with rfl | hb2
        · exact hle
        · exact le_trans (hq_le b hb2) hle
      rcases Nat.lt_or_ge b.2 p.2 with hlt | hge
      · exact Or.inl hlt
      · exact Or.inr ⟨le_antisymm hb2 hge, hR b hb⟩
    · rename_i hnle
      have hpq : p.2 < q.2 := by omega
      refine List.pairwise_cons.mpr
        ⟨?_, ih hsorted_rest hD_rest (fun x hx => hR x (List.mem_cons_of_mem q hx))⟩
      intro b hb
      rcases mem_insertByCount hb with rfl | hb2
      · exact Or.inl hpq
      · exact hqD b hb2

theorem sortByCountDesc_stable (R : Str × Nat → Str × Nat → Prop) :
    ∀ (il : List (Str × Nat)), il.Pairwise R →
      (sortByCountDesc il).Pairwise (fun a b => b.2 < a.2 ∨ (b.2 = a.2 ∧ R a b)) := by
  intro il
  induction il with
  | nil =>
    intro _
    simp [sortByCountDesc]
  | cons p rest ih =>
    intro h
    rcases List.pairwise_cons.mp h with ⟨hp, hrest⟩
    rw [sortByCountDesc]
    exact insertByCount_stable R p (sorted_sortByCountDesc rest) (ih hrest)
      (fun q hq => hp q ((sortByCountDesc_perm rest).mem_iff.mp hq))

theorem value_counts_stable (l : List Str) :
    (value_counts l).Pairwise (fun p q =>
      q.2 < p.2 ∨ (q.2 = p.2 ∧ firstIdx l p.1 < firstIdx l q.1)) := by
  rw [value_counts]
  apply sortByCountDesc_stable (fun p q => firstIdx l p.1 < firstIdx l q.1)
  rw [List.pairwise_map]
  exact pairwise_firstIdx_uniqueKeys l

/-! ### Claim theorems -/

/-- Claim C1, evaluated at the failing input: saving a corpus whose only
document has empty text writes the texte cell as an empty unquoted field, and
that cell is one of the NA sentinels `read_csv` converts to the float NaN
(see `isNaCell`), so the program reloads the pair as (NaN, arxiv) instead of
the saved empty string and the round trip of the (text, source) sequence
fails.  The quoting layer itself is lossless (see the round trip lemma
above); the defect is the NA conversion applied to the parsed cells. -/
theorem c1_na_code_bug :
    Corpus.save corpusNaC1 = some (("id\ttexte\tsource\n0\t\tarxiv\n").data)
      ∧ ((csvParse (("id\ttexte\tsource\n0\t\tarxiv\n").data)).getD 1 []).getD 1
          (("x").data) = []
      ∧ isNaCell [] = true :=
  ⟨rfl, rfl, rfl⟩

/-- Claim C2: after construction the ids are exactly 0..n-1 in entry order,
and after any clean call the ids are exactly 0..m-1 in entry order, with m the
current entry count. -/
theorem c2_dense_ids (docs : List Doc) (c : Corpus) (m : Nat) :
    (Corpus.construct docs).rows.map (fun r => r.id) = List.range docs.length
      ∧ (Corpus.clean c m).rows.map (fun r => r.id)
          = List.range (Corpus.clean c m).rows.length := by
  constructor
  · simp only [Corpus.construct]
    rw [rowsOfDocs_map_id, List.range_eq_range']
  · exact clean_map_id c m

/-- Claim C3: clean retains exactly the entries with text strictly longer than
min_length, in order; the entry count never grows; cleaning twice with the
same bound changes nothing the second time. -/
theorem c3_clean_spec (c : Corpus) (m : Nat) :
    (Corpus.clean c m).rows.map (fun r => (r.texte, r.source))
        = (c.rows.filter (fun r => decide (m < r.texte.length))).map
            (fun r => (r.texte, r.source))
      ∧ (∀ r ∈ (Corpus.clean c m).rows, m < r.texte.length)
      ∧ (Corpus.clean c m).rows.length ≤ c.rows.length
      ∧ Corpus.clean (Corpus.clean c m) m = Corpus.clean c m :=
  ⟨clean_map_ts c m, clean_retained c m, clean_length_le c m, clean_idem c m⟩

/-- Claim C4: any document either normalizer produces has a text with zero
newline characters. -/
theorem c4_no_newlines :
    (∀ (s : Submission) (d : AcqDoc),
        normalize_submission s = .ok d → d.texte.count '\n' = 0)
      ∧ (∀ (e : ArxivEntry) (d : AcqDoc),
          normalize_entry e = .ok d → d.texte.count '\n' = 0) :=
  ⟨fun _ _ h => normalize_submission_no_nl h, fun _ _ h => normalize_entry_no_nl h⟩

/-- Witness for claim C4 at records whose text-bearing fields hold newlines. -/
theorem c4_no_newlines_witness :
    redditDocC4.texte.count '\n' = 0 ∧ arxivDocC4.texte.count '\n' = 0 :=
  ⟨c4_no_newlines.1 subC4 redditDocC4 (by rfl)
  , c4_no_newlines.2 entC4 arxivDocC4 (by rfl)⟩

/-- Counterexample to claim C5: get_stats does not leave the entire tabular
state identical; on a non-empty corpus it adds the derived columns nb_mots,
nb_phrases and nb_chars to every row. -/
theorem c5_stats_counterexample :
    (Corpus.get_stats corpusC5).1.rows ≠ corpusC5.rows := by
  decide

/-- Claim C5 as amended: get_stats mutates no persisted field: the id, texte
and source of every row, and the docs list, are unchanged; only the derived
count columns are (re)assigned. -/
theorem c5_stats_frame (c : Corpus) :
    (Corpus.get_stats c).1.rows.map (fun r => (r.id, r.texte, r.source))
        = c.rows.map (fun r => (r.id, r.texte, r.source))
      ∧ (Corpus.get_stats c).1.docs = c.docs :=
  ⟨get_stats_rows_proj c, get_stats_docs c⟩

/-- Claim C6: on a non-empty store the reported per-source counts have one
pair per distinct source, their sum is the store size, each count is the
number of rows with that source, and they are listed in descending count
order with ties broken by the first-seen source (a later pair has a strictly
smaller count, or an equal count and a strictly later first occurrence in the
source column); on two discussion documents and one preprint document the
report is discussion:2 then preprint:1. -/
theorem c6_stats_source_counts :
    (∀ (c : Corpus), c.rows ≠ [] →
      ∃ rep, (Corpus.get_stats c).2 = some rep
        ∧ (rep.repartition.map (fun p => p.2)).sum = c.rows.length
        ∧ (rep.repartition.map (fun p => p.1)).Nodup
        ∧ (∀ s, s ∈ rep.repartition.map (fun p => p.1)
            ↔ s ∈ c.rows.map (fun r => r.source))
        ∧ (∀ p ∈ rep.repartition,
            p.2 = (c.rows.map (fun r => r.source)).countP (fun t => decide (t = p.1)))
        ∧ rep.repartition.Pairwise (fun a b => b.2 ≤ a.2)
        ∧ rep.repartition.Pairwise (fun a b => b.2 < a.2
            ∨ (b.2 = a.2 ∧ firstIdx (c.rows.map (fun r => r.source)) a.1
                < firstIdx (c.rows.map (fun r => r.source)) b.1)))
    ∧ (Corpus.get_stats corpusC6).2.map (fun rep => rep.repartition)
        = some [((("discussion").data : Str), 2), ((("preprint").data : Str), 1)] := by
  constructor
  · intro c hc
    have hemp : ¬c.rows.isEmpty = true := by simpa [List.isEmpty_iff] using hc
    refine ⟨{ total := c.rows.length
            , repartition := value_counts (c.rows.map (fun r => r.source)) }
      , get_stats_report c hemp, ?_, ?_, ?_, ?_, ?_, ?_⟩
    · have hs := sum_value_counts (c.rows.map (fun r => r.source))
      rw [List.length_map] at hs
      exact hs
    · exact nodup_value_counts_keys _
    · intro s
      exact mem_value_counts_keys _ s
    · exact value_counts_counts _
    · exact sorted_sortByCountDesc _
    · exact value_counts_stable _
  · rw [corpusC6]
    rw [get_stats_report _ (by decide)]
    simp only [Option.map_some]
    rw [show (Corpus.construct
        [ { texte := ("aaa").data, source := ("discussion").data }
        , { texte := ("bb").data, source := ("preprint").data }
        , { texte := ("c").data, source := ("discussion").data } ]).rows.map (fun r => r.source)
      = [("discussion").data, ("preprint").data, ("discussion").data] from rfl]
    rw [value_counts]
    rw [show uniqueKeys [("discussion").data, ("preprint").data, ("discussion").data]
        = [("discussion").data, ("preprint").data] from by
      rw [uniqueKeys]
      rw [show ([("preprint").data, ("discussion").data].filter
          (fun t => decide (¬t = ("discussion").data))) = [("preprint").data] from by decide]
      rw [uniqueKeys]
      rw [show (([] : List Str).filter (fun t => decide (¬t = ("preprint").data))) = [] from by decide]
      rw [uniqueKeys]]
    simp only [List.map_cons, List.map_nil]
    rw [show ([("discussion").data, ("preprint").data, ("discussion").data].countP
        (fun t => decide (t = ("discussion").data))) = 2 from by decide]
    rw [show ([("discussion").data, ("preprint").data, ("discussion").data].countP
        (fun t => decide (t = ("preprint").data))) = 1 from by decide]
    rfl

/-- Witness for claim C6 at the two-discussion one-preprint corpus. -/
theorem c6_stats_source_counts_witness :
    ∃ rep, (Corpus.get_stats corpusC6).2 = some rep
      ∧ (rep.repartition.map (fun p => p.2)).sum = corpusC6.rows.length
      ∧ (rep.repartition.map (fun p => p.1)).Nodup
      ∧ (∀ s, s ∈ rep.repartition.map (fun p => p.1)
          ↔ s ∈ corpusC6.rows.map (fun r => r.source))
      ∧ (∀ p ∈ rep.repartition,
          p.2 = (corpusC6.rows.map (fun r => r.source)).countP (fun t => decide (t = p.1)))
      ∧ rep.repartition.Pairwise (fun a b => b.2 ≤ a.2)
      ∧ rep.repartition.Pairwise (fun a b => b.2 < a.2
          ∨ (b.2 = a.2 ∧ firstIdx (corpusC6.rows.map (fun r => r.source)) a.1
              < firstIdx (corpusC6.rows.map (fun r => r.source)) b.1)) :=
  c6_stats_source_counts.1 corpusC6 (by decide)

/-- Counterexample to claim C8: an entry whose summary container is entirely
missing does not make normalization fail; the empty-string fallback applies
and a document with empty text is produced. -/
theorem c8_schema_counterexample :
    entC8.summary = none
      ∧ normalize_entry entC8
          = .ok { texte := [], source := ("arxiv").data, titre := []
                , auteur := ("Unknown").data, date := .str [], url := [] } :=
  ⟨rfl, rfl⟩

/-- Claim C8 as amended: for a discussion record a structurally absent
text-bearing attribute (title or selftext) makes normalization fail, and the
error propagates unmodified to the caller of get_docs; for a preprint entry a
structurally absent summary is covered by the empty-string fallback and
normalization succeeds with empty text whenever the author field is not an
empty list. -/
theorem c8_schema_errors :
    (∀ (s : Submission), s.title = none ∨ s.selftext = none →
      ∃ err, normalize_submission s = .error err
        ∧ ∀ (rest : List Submission) (articles : ParsedResponse),
            get_docs (s :: rest) articles = .error err)
      ∧ (∀ (e : ArxivEntry), e.summary = none → e.author ≠ .several [] →
          ∃ d, normalize_entry e = .ok d ∧ d.texte = []) := by
  constructor
  · intro s hs
    obtain ⟨err, herr⟩ := normalize_submission_error_of_missing s hs
    exact ⟨err, herr, fun rest articles => get_docs_error_of_reddit s err herr rest articles⟩
  · intro e hsum hauth
    have hex : ∃ a, entry_auteur e = .ok a := by
      cases ha : e.author with
      | absent => exact ⟨_, by rw [entry_auteur, ha]⟩
      | single a => exact ⟨_, by rw [entry_auteur, ha]⟩
      | several l =>
        cases l with
        | nil => exact absurd ha hauth
        | cons a t => exact ⟨_, by rw [entry_auteur, ha]⟩
    obtain ⟨a, ha⟩ := hex
    refine ⟨_, normalize_entry_ok_of_auteur ha, ?_⟩
    simp [hsum, replaceNl]

/-- Witness for claim C8 at a submission with no selftext and at an entry
with no summary. -/
theorem c8_schema_errors_witness :
    (∃ err, normalize_submission subC8 = .error err
      ∧ ∀ (rest : List Submission) (articles : ParsedResponse),
          get_docs (subC8 :: rest) articles = .error err)
      ∧ (∃ d, normalize_entry entC8 = .ok d ∧ d.texte = []) :=
  ⟨c8_schema_errors.1 subC8 (Or.inr rfl)
  , c8_schema_errors.2 entC8 rfl (by decide)⟩

/-- Claim C9: a single author object resolves to its name, a list of author
objects resolves to the name of its first element, and an absent author field
resolves to the sentinel Unknown. -/
theorem c9_author_resolution (e : ArxivEntry) :
    (∀ n, e.author = .single { name := some n } →
      ∃ d, normalize_entry e = .ok d ∧ d.auteur = n)
      ∧ (∀ n rest, e.author = .several ({ name := some n } :: rest) →
          ∃ d, normalize_entry e = .ok d ∧ d.auteur = n)
      ∧ (e.author = .absent →
          ∃ d, normalize_entry e = .ok d ∧ d.auteur = ("Unknown").data) := by
  refine ⟨?_, ?_, ?_⟩
  · intro n hn
    have ha : entry_auteur e = .ok n := by
      rw [entry_auteur, hn]
      rfl
    exact ⟨_, normalize_entry_ok_of_auteur ha, rfl⟩
  · intro n rest hn
    have ha : entry_auteur e = .ok n := by
      rw [entry_auteur, hn]
      rfl
    exact ⟨_, normalize_entry_ok_of_auteur ha, rfl⟩
  · intro hn
    have ha : entry_auteur e = .ok (("Unknown").data) := by rw [entry_auteur, hn]
    exact ⟨_, normalize_entry_ok_of_auteur ha, rfl⟩

/-- Witness for claim C9 at the three author shapes. -/
theorem c9_author_resolution_witness :
    (∃ d, normalize_entry entC9single = .ok d ∧ d.auteur = ("Alice").data)
      ∧ (∃ d, normalize_entry entC9list = .ok d ∧ d.auteur = ("Bob").data)
      ∧ (∃ d, normalize_entry entC9absent = .ok d ∧ d.auteur = ("Unknown").data) :=
  ⟨(c9_author_resolution entC9single).1 (("Alice").data) rfl
  , (c9_author_resolution entC9list).2.1 (("Bob").data) [{ name := some (("Carol").data) }] rfl
  , (c9_author_resolution entC9absent).2.2 rfl⟩

/-- Claim C10: a parsed response whose feed has no entry key yields the empty
document list without raising. -/
theorem c10_missing_entry (articles : ParsedResponse) (feed : Feed)
    (hf : articles.feed = some feed) (he : feed.entry = none) :
    get_arxiv_docs articles = .ok [] := by
  have h1 : get_arxiv_docs articles
      = (match feed.entry with
          | none => .ok []
          | some (.one e) => normalize_entries [e]
          | some (.many l) => normalize_entries l) := by
    rw [get_arxiv_docs, hf]
  rw [h1, he]

/-- Witness for claim C10 at a feed with no entry key. -/
theorem c10_missing_entry_witness :
    get_arxiv_docs { feed := some { entry := none } } = .ok [] :=
  c10_missing_entry { feed := some { entry := none } } { entry := none } rfl rfl
